import Mathlib

/-!
Verification development for the form-data tree building core of the
roadrunner-server/aws-lambda plugin (`request_parser.go`, `plugin.go`).

The Go code is shallowly embedded: Go's mutable `map[string]any` trees become
ordered association trees (`DTree`, `FTree`), mutation becomes explicit state
passing, and fallible functions return `Except String`.  Go `nil`-able
`*FileUpload` pointers become `Option Upload`.  Machine integers that appear
(path lengths, byte values) fit in `Nat` without overflow concerns.
-/

set_option maxRecDepth 4000

/-! ### Data tree (`dataTree map[string]any` in request_parser.go)

A value stored in a data-tree node is a scalar string, a list of strings, or
a nested tree.  Go's `map[string]any` is embedded as an ordered association
tree; `DTree.set` replaces the binding of an existing key in place and
appends fresh keys, which matches map update up to iteration order. -/

mutual

inductive DVal where
  | vStr (s : String)
  | vList (l : List String)
  | vTree (t : DTree)

inductive DTree where
  | nil
  | cons (k : String) (v : DVal) (rest : DTree)

end

/-- Lookup in a data tree node (Go: `tree[i[0]]`, the comma-ok form). -/
def DTree.lookup : DTree → String → Option DVal
  | .nil, _ => Option.none
  | .cons k v rest, key => if k = key then some v else rest.lookup key

/-- Map update in a data tree node (Go: `tree[i[0]] = x`). -/
def DTree.set : DTree → String → DVal → DTree
  | .nil, key, val => .cons key val .nil
  | .cons k v rest, key, val =>
    if k = key then .cons key val rest else .cons k v (rest.set key val)

/-- Is the stored value itself a branch? (Go: `_, isBranch := tree[i[0]].(T)`). -/
def DVal.isBranch : DVal → Bool
  | .vTree _ => true
  | _ => false

/-! ### File uploads (`FileUpload`, `Uploads` in request_parser.go) -/

/-- Upload descriptor (Go struct `FileUpload`).  The `header` field is the
in-memory multipart header handle and plays no role in the tree logic. -/
structure Upload where
  name : String
  mime : String
  size : Nat
  errorCode : Nat
  tempFilename : String
deriving DecidableEq

mutual

inductive FVal where
  | fUp (u : Option Upload)
  | fList (l : List (Option Upload))
  | fTree (t : FTree)

inductive FTree where
  | nil
  | cons (k : String) (v : FVal) (rest : FTree)

end

/-- Lookup in a file tree node. -/
def FTree.lookup : FTree → String → Option FVal
  | .nil, _ => Option.none
  | .cons k v rest, key => if k = key then some v else rest.lookup key

/-- Map update in a file tree node. -/
def FTree.set : FTree → String → FVal → FTree
  | .nil, key, val => .cons key val .nil
  | .cons k v rest, key, val =>
    if k = key then .cons key val rest else .cons k v (rest.set key val)

/-- Is the stored file-tree value itself a branch? -/
def FVal.isBranch : FVal → Bool
  | .fTree _ => true
  | _ => false

/-! ### Emptiness test (`isDataEmpty` in request_parser.go)

`isDataEmpty` type-switches on `string`, `[]string` and `[]*FileUpload`;
everything else (including both tree map types and a single `*FileUpload`
stored in an interface, even a nil pointer) falls to `default: v == nil`,
which is false for any value carried in a non-nil interface. -/

/-- `isDataEmpty` applied to a value stored in a data tree. -/
def isDataEmptyD : DVal → Bool
  | .vStr s => s.isEmpty
  | .vList [] => true
  | .vList [s] => s.isEmpty
  | .vList _ => false
  | .vTree _ => false

/-- `isDataEmpty` applied to an incoming `[]string` value. -/
def isDataEmptyVS : List String → Bool
  | [] => true
  | [s] => s.isEmpty
  | _ => false

/-- `isDataEmpty` applied to a value stored in a file tree.  A single stored
`*FileUpload` hits the `default` case of the Go type switch and is never
empty (a typed nil pointer inside an interface is not `== nil`). -/
def isDataEmptyF : FVal → Bool
  | .fUp _ => false
  | .fList [] => true
  | .fList [Option.none] => true
  | .fList _ => false
  | .fTree _ => false

/-- `isDataEmpty` applied to an incoming `[]*FileUpload` value. -/
def isDataEmptyFS : List (Option Upload) → Bool
  | [] => true
  | [Option.none] => true
  | _ => false

/-! ### Key path tokenizer (`fetchIndexes` in request_parser.go)

The Go routine scans runes, tracking `pos` (0 inside a segment, 1 right
after `[`, 2 right after `]`) and appending to a `[]string` that starts as
`make([]string, 1)` (one empty segment).  Segments are built here as
`List Char` and converted to `String` at the end. -/

/-- Append one character to the last segment
(Go: `(*keys)[len(*keys)-1] += ch`; the list is never empty when called). -/
def appendToLast : List (List Char) → Char → List (List Char)
  | [], _ => []
  | [s], c => [s ++ [c]]
  | s :: rest, c => s :: appendToLast rest c

/-- The character scan of `fetchIndexes`. -/
def fetchAux : List Char → Nat → List (List Char) → List (List Char)
  | [], _, keys => keys
  | c :: rest, pos, keys =>
    if c = ' ' then fetchAux rest pos keys
    else if c = '[' then fetchAux rest 1 keys
    else if c = ']' then
      fetchAux rest 2 (if pos = 1 then keys ++ [[]] else keys)
    else
      fetchAux rest 0
        (appendToLast (if pos = 1 || pos = 2 then keys ++ [[]] else keys) c)

/-- `fetchIndexes` with the initial one-empty-segment slice allocated by the
callers (`make([]string, 1)`). -/
def fetchIndexes (s : String) : List String :=
  (fetchAux s.toList 0 [[]]).map (fun l => String.mk l)

/-- `maxLevel` in request_parser.go. -/
def maxLevel : Nat := 127

/-! ### Tree mount (`prepareTreeNode`, `mount`, `push` in request_parser.go)

`prepareTreeNode` is generic over the two tree types; it is embedded once
per instantiation.  It returns `(done, tree)` on success — the Go original
mutates the tree in place and returns only `done`. -/

/-- `len(i) > 1 && len(i[1]) > 0` on the tail of the path. -/
def descendsInto : List String → Bool
  | [] => false
  | r :: _ => !r.isEmpty

/-- `len(i) == 1 || (len(i) == 2 && len(i[1]) == 0)` on the tail of the path. -/
def leafIncoming : List String → Bool
  | [] => true
  | [s] => s.isEmpty
  | _ => false

/-- The error message of both conflict returns in `prepareTreeNode`. -/
def conflictMsg : String := "invalid multiple values in tree"

/-- `prepareTreeNode` instantiated at `dataTree` / `[]string`. -/
def prepareDataNode (tree : DTree) (i : List String) (v : List String) :
    Except String (Bool × DTree) :=
  match i with
  | [] => .ok (false, tree)
  | k :: rest =>
    match tree.lookup k with
    | Option.none => .ok (false, tree.set k (.vTree .nil))
    | some cur =>
      let isBranch := cur.isBranch
      let isDataInTreeEmpty := isDataEmptyD cur
      let isIncomingValueEmpty := isDataEmptyVS v
      let isLeafNodeIncoming := leafIncoming rest
      if !isBranch && !isDataInTreeEmpty && descendsInto rest then
        .error conflictMsg
      else if !isBranch && !isDataInTreeEmpty && isIncomingValueEmpty then
        .ok (true, tree)
      else if !isBranch && isDataInTreeEmpty && !isIncomingValueEmpty then
        .ok (false, tree.set k (.vTree .nil))
      else if isBranch && isLeafNodeIncoming && !isIncomingValueEmpty then
        .error conflictMsg
      else if isBranch && isLeafNodeIncoming && isIncomingValueEmpty then
        .ok (true, tree)
      else
        .ok (false, tree)

/-- `prepareTreeNode` instantiated at `fileTree` / `[]*FileUpload`. -/
def prepareFileNode (tree : FTree) (i : List String) (v : List (Option Upload)) :
    Except String (Bool × FTree) :=
  match i with
  | [] => .ok (false, tree)
  | k :: rest =>
    match tree.lookup k with
    | Option.none => .ok (false, tree.set k (.fTree .nil))
    | some cur =>
      let isBranch := cur.isBranch
      let isDataInTreeEmpty := isDataEmptyF cur
      let isIncomingValueEmpty := isDataEmptyFS v
      let isLeafNodeIncoming := leafIncoming rest
      if !isBranch && !isDataInTreeEmpty && descendsInto rest then
        .error conflictMsg
      else if !isBranch && !isDataInTreeEmpty && isIncomingValueEmpty then
        .ok (true, tree)
      else if !isBranch && isDataInTreeEmpty && !isIncomingValueEmpty then
        .ok (false, tree.set k (.fTree .nil))
      else if isBranch && isLeafNodeIncoming && !isIncomingValueEmpty then
        .error conflictMsg
      else if isBranch && isLeafNodeIncoming && isIncomingValueEmpty then
        .ok (true, tree)
      else
        .ok (false, tree)

/-- `dataTree.mount`.  The Go original mutates `dt`; here the updated tree is
returned.  When the slot holds no subtree on the descend path, Go installs a
fresh `make(dataTree, 1)` and recurses into it. -/
def dataMount : DTree → List String → List String → Except String DTree
  | tree, [], _ => .ok tree
  | tree, k :: rest, v =>
    match prepareDataNode tree (k :: rest) v with
    | .error e => .error e
    | .ok (true, t) => .ok t
    | .ok (false, t) =>
      if rest = [""] then .ok (t.set k (.vList v))
      else if rest = [] then
        (if v.isEmpty then .ok (t.set k (.vList v))
         else .ok (t.set k (.vStr (v.getLastD ""))))
      else
        match t.lookup k with
        | some (.vTree sub) =>
          match dataMount sub rest v with
          | .error e => .error e
          | .ok sub2 => .ok (t.set k (.vTree sub2))
        | _ =>
          match dataMount DTree.nil rest v with
          | .error e => .error e
          | .ok sub2 => .ok (t.set k (.vTree sub2))

/-- `fileTree.mount`.  Unlike the data variant, the descend path demands an
existing subtree and otherwise fails with "invalid tree structure". -/
def fileMount : FTree → List String → List (Option Upload) → Except String FTree
  | tree, [], _ => .ok tree
  | tree, k :: rest, v =>
    match prepareFileNode tree (k :: rest) v with
    | .error e => .error e
    | .ok (true, t) => .ok t
    | .ok (false, t) =>
      if rest = [""] then .ok (t.set k (.fList v))
      else if rest = [] then
        (match v with
         | u :: _ => .ok (t.set k (.fUp u))
         | [] => .ok (t.set k (.fList v)))
      else
        match t.lookup k with
        | some (.fTree sub) =>
          match fileMount sub rest v with
          | .error e => .error e
          | .ok sub2 => .ok (t.set k (.fTree sub2))
        | _ => .error "invalid tree structure: expected fileTree"

/-- `dataTree.push`: tokenize the field name, silently drop paths deeper than
`maxLevel`, otherwise mount. -/
def dataPush (t : DTree) (k : String) (v : List String) : Except String DTree :=
  let keys := fetchIndexes k
  if keys.length ≤ maxLevel then dataMount t keys v else .ok t

/-- `fileTree.push`. -/
def filePush (t : FTree) (k : String) (v : List (Option Upload)) :
    Except String FTree :=
  let keys := fetchIndexes k
  if keys.length ≤ maxLevel then fileMount t keys v else .ok t

example : fetchIndexes "meta[author]" = ["meta", "author"] := by decide
example : fetchIndexes "tags[]" = ["tags", ""] := by decide
example : dataMount (.cons "a" (.vStr "1") .nil) ["a", "b"] [""] =
    .error "invalid multiple values in tree" := by rfl
example : dataMount .nil ["tags", ""] ["a", "b"] =
    .ok (.cons "tags" (.vList ["a", "b"]) .nil) := by rfl

/-! ### JSON encoding (`packDataTree`, `encoding/json` in request_parser.go)

`packDataTree` special-cases the empty map to the two bytes `{}` and
otherwise delegates to `json.Marshal`, which serializes Go maps with their
keys in ascending (bytewise) order.  Only the fragment of `json.Marshal`
exercised by these trees is embedded: strings, string slices and nested
maps.  String escaping covers the quote and backslash characters; none of
the verified inputs contain characters that `encoding/json` escapes
differently. -/

/-- JSON string literal. -/
def jsonString (s : String) : String :=
  "\"" ++ String.join (s.toList.map (fun c =>
    if c = '"' then "\\\"" else if c = '\\' then "\\\\" else String.mk [c])) ++ "\""

/-- Lexicographic order on character lists, by code point (UTF-8 byte order
and code-point order coincide, so this is Go's bytewise string order). -/
def charListLt : List Char → List Char → Bool
  | [], [] => false
  | [], _ :: _ => true
  | _ :: _, [] => false
  | a :: as, b :: bs =>
    if a.toNat < b.toNat then true
    else if b.toNat < a.toNat then false
    else charListLt as bs

/-- Go's `<` on strings (bytewise comparison, used by `json.Marshal` to sort
map keys). -/
def strLt (a b : String) : Bool := charListLt a.toList b.toList

/-- Insert one entry into a key-sorted association tree, keeping it sorted
(ascending keys, as `json.Marshal` orders map keys). -/
def insertEntryD (key : String) (val : DVal) : DTree → DTree
  | .nil => .cons key val .nil
  | .cons k v rest =>
    if strLt key k then .cons key val (.cons k v rest)
    else .cons k v (insertEntryD key val rest)

mutual

/-- Recursively order every node of a data value by key, modelling the
deterministic key order `json.Marshal` gives Go maps. -/
def sortDVal : DVal → DVal
  | .vStr s => .vStr s
  | .vList l => .vList l
  | .vTree t => .vTree (sortDTree t)

def sortDTree : DTree → DTree
  | .nil => .nil
  | .cons k v rest => insertEntryD k (sortDVal v) (sortDTree rest)

end

mutual

/-- `json.Marshal` on a data-tree value (keys already ordered). -/
def dvalToJson : DVal → String
  | .vStr s => jsonString s
  | .vList l => "[" ++ String.intercalate "," (l.map jsonString) ++ "]"
  | .vTree t => "\x7b" ++ String.intercalate "," (dtreeFields t) ++ "\x7d"

def dtreeFields : DTree → List String
  | .nil => []
  | .cons k v rest => (jsonString k ++ ":" ++ dvalToJson v) :: dtreeFields rest

end

/-- `packDataTree`: empty map becomes the literal bytes `{}`, otherwise the
tree is marshalled with sorted keys. -/
def packDataTree (t : DTree) : String :=
  match t with
  | .nil => "\x7b\x7d"
  | _ => dvalToJson (sortDVal (.vTree t))

/-! ### URL-encoded body decoding (`parseURLEncoded`, `parsePostForm`)

`parseURLEncoded` builds an `http.Request` and calls `ParseForm`, which for
an `application/x-www-form-urlencoded` body runs `url.ParseQuery` over the
body: split on `&`, skip empty components, reject `;`, cut each component at
the first `=`, percent-decode both halves with `+` meaning space, and group
values by key into `url.Values`.  `parsePostForm` then pushes every
`(key, values)` group into a fresh data tree.  That stdlib pipeline is
embedded here for the happy path; any unescape failure aborts with an error
exactly as `ParseForm` reports one. -/

/-- Split a byte list on `&` separators. -/
def splitAmp : List Char → List (List Char)
  | [] => [[]]
  | c :: rest =>
    if c = '&' then [] :: splitAmp rest
    else
      match splitAmp rest with
      | [] => [[c]]
      | g :: gs => (c :: g) :: gs

/-- Cut at the first `=` (Go: `strings.Cut(key, "=")`; no `=` gives an empty
value). -/
def cutEq : List Char → List Char × List Char
  | [] => ([], [])
  | c :: rest =>
    if c = '=' then ([], rest)
    else
      let p := cutEq rest
      (c :: p.1, p.2)

/-- Hexadecimal digit value (Go `ishex`/`unhex`). -/
def unhex (c : Char) : Option Nat :=
  if '0' ≤ c ∧ c ≤ '9' then some (c.toNat - '0'.toNat)
  else if 'a' ≤ c ∧ c ≤ 'f' then some (c.toNat - 'a'.toNat + 10)
  else if 'A' ≤ c ∧ c ≤ 'F' then some (c.toNat - 'A'.toNat + 10)
  else none

/-- `url.QueryUnescape`: decode `%XX` escapes and turn `+` into space. -/
def unescapeQuery : List Char → Option (List Char)
  | [] => some []
  | '%' :: a :: b :: rest =>
    match unhex a, unhex b with
    | some x, some y => (unescapeQuery rest).map (fun l => Char.ofNat (16 * x + y) :: l)
    | _, _ => none
  | '%' :: _ => none
  | '+' :: rest => (unescapeQuery rest).map (fun l => ' ' :: l)
  | c :: rest => (unescapeQuery rest).map (fun l => c :: l)

/-- `url.ParseQuery` component loop, producing `(key, value)` pairs in body
order.  Go records the first error and drops the offending pair but still
returns the error to `ParseForm`, which makes `parseURLEncoded` fail; that
net effect is modelled by failing directly. -/
def parseQueryComponents : List (List Char) → Except String (List (String × String))
  | [] => .ok []
  | comp :: rest =>
    if comp.contains ';' then .error "invalid semicolon separator in query"
    else if comp = [] then parseQueryComponents rest
    else
      let kv := cutEq comp
      match unescapeQuery kv.1, unescapeQuery kv.2 with
      | some kd, some vd =>
        match parseQueryComponents rest with
        | .error e => .error e
        | .ok ps => .ok ((String.mk kd, String.mk vd) :: ps)
      | _, _ => .error "invalid URL escape"

/-- Group decoded pairs into `url.Values` entries, keys in first-occurrence
order, values in body order (Go: `m[key] = append(m[key], value)`). -/
def addQueryPair (acc : List (String × List String)) (k v : String) :
    List (String × List String) :=
  match acc with
  | [] => [(k, [v])]
  | (k0, vs) :: rest =>
    if k0 = k then (k0, vs ++ [v]) :: rest else (k0, vs) :: addQueryPair rest k v

/-- Accumulate all pairs into grouped `url.Values` form. -/
def groupQueryPairs (ps : List (String × String)) : List (String × List String) :=
  ps.foldl (fun acc p => addQueryPair acc p.1 p.2) []

/-- `parsePostForm`: push every `(key, values)` group of `r.PostForm` into a
fresh data tree. -/
def parsePostFormGo : List (String × List String) → DTree → Except String DTree
  | [], t => .ok t
  | (k, v) :: rest, t =>
    match dataPush t k v with
    | .error e => .error e
    | .ok t2 => parsePostFormGo rest t2

/-- `parseURLEncoded` (with an `application/x-www-form-urlencoded`
content-type header present, so that `ParseForm` decodes the body): decode
the body, build the data tree, and pack it. -/
def parseURLEncodedGo (body : String) : Except String String :=
  match parseQueryComponents (splitAmp body.toList) with
  | .error e => .error e
  | .ok pairs =>
    match parsePostFormGo (groupQueryPairs pairs) .nil with
    | .error e => .error e
    | .ok t => .ok (packDataTree t)

example : packDataTree .nil = "\x7b\x7d" := by rfl
example : parseURLEncodedGo "full_name=Ada+Lovelace&nested[one]=1&tags[]=a&tags[]=b" =
    .ok "\x7b\"full_name\":\"Ada Lovelace\",\"nested\":\x7b\"one\":\"1\"\x7d,\"tags\":[\"a\",\"b\"]\x7d" := by
  rfl

/-! ### Uploads collection (`Uploads`, `parseUploads`, `Uploads.Clear`)

`Uploads` owns the file tree plus a flat list of all descriptors.
`parseUploads` walks `r.MultipartForm.File`, wraps every part header with
`NewUpload`, appends the batch to the flat list and pushes it into the tree.
`Clear` removes each descriptor's temp file from disk, skipping empty names
and already-missing files.  The filesystem is modelled as the list of
existing paths; `os.Remove` becomes removal from that list. -/

structure UploadsGo where
  tree : FTree
  list : List Upload

/-- `parseUploads` over the entries of `r.MultipartForm.File` (one list
entry per form key, in iteration order, each carrying the uploads built by
`NewUpload` from its `[]*multipart.FileHeader`). -/
def parseUploadsGo : List (String × List Upload) → UploadsGo → Except String UploadsGo
  | [], u => .ok u
  | (k, files) :: rest, u =>
    match filePush u.tree k (files.map Option.some) with
    | .error e => .error e
    | .ok t2 => parseUploadsGo rest ⟨t2, u.list ++ files⟩

mutual

/-- All upload descriptors reachable from a file-tree value. -/
def fvalUploads : FVal → List (Option Upload)
  | .fUp u => [u]
  | .fList l => l
  | .fTree t => ftreeUploads t

/-- All upload descriptors reachable from a file tree. -/
def ftreeUploads : FTree → List (Option Upload)
  | .nil => []
  | .cons _ v rest => fvalUploads v ++ ftreeUploads rest

end

/-- One iteration of the loop in `Uploads.Clear`: delete the temp file if
the descriptor names one and it still exists. -/
def clearStep (fs : List String) (f : Upload) : List String :=
  if f.tempFilename ≠ "" && fs.contains f.tempFilename then
    fs.filter (fun q => q ≠ f.tempFilename)
  else fs

/-- `Uploads.Clear` acting on the modelled filesystem. -/
def uploadsClear (list : List Upload) (fs : List String) : List String :=
  list.foldl clearStep fs

/-! ### Content classification (`contentType`, `transformBody`)

`contentType` compares the method against `http.MethodHead`/`Options` and
substring-matches the (caller-lowercased) content type; it returns one of
the four `iota + 900` constants from request_parser.go.  Matching happens on
bytes, so the header is modelled as its byte list, lowercased exactly as
`strings.ToLower` does for ASCII. -/

/-- `contentNone` (`iota + 900` places it at 901). -/
def contentNoneC : Nat := 901

/-- `contentStream`. -/
def contentStreamC : Nat := 902

/-- `contentMultipart`. -/
def contentMultipartC : Nat := 903

/-- `contentURLEncoded`. -/
def contentURLEncodedC : Nat := 904

/-- ASCII lowercasing of one byte (`strings.ToLower` on the ASCII subset
that content-type headers use). -/
def lowerByte (b : Nat) : Nat := if 65 ≤ b ∧ b ≤ 90 then b + 32 else b

/-- The bytes of a string. -/
def strBytes (s : String) : List Nat := s.toList.map Char.toNat

/-- Does `pat` start `l`? -/
def leadsWith : List Nat → List Nat → Bool
  | [], _ => true
  | _ :: _, [] => false
  | a :: as, b :: bs => a = b && leadsWith as bs

/-- `strings.Contains` on byte lists. -/
def hasSub : List Nat → List Nat → Bool
  | [], pat => pat.isEmpty
  | c :: rest, pat => leadsWith pat (c :: rest) || hasSub rest pat

/-- `contentType` in request_parser.go. -/
def contentTypeGo (method : String) (ct : List Nat) : Nat :=
  if method = "HEAD" || method = "OPTIONS" then contentNoneC
  else if hasSub ct (strBytes "application/x-www-form-urlencoded") then contentURLEncodedC
  else if hasSub ct (strBytes "multipart/form-data") then contentMultipartC
  else contentStreamC

/-- Outcome of `transformBody` in plugin.go, by classification: `tbNone`
models the `(nil, nil, false, nil, nil)` return (no body forwarded, nothing
decoded); `tbStream` passes the raw body through unmodified; `tbURLEncoded`
carries the result of the URL-encoded decoding path; `tbMultipart` marks
that the multipart decoding path was invoked on the body. -/
inductive TransformedBody where
  | tbNone
  | tbURLEncoded (res : Except String String)
  | tbMultipart (body : String)
  | tbStream (body : String)

/-- `transformBody`: lowercase the content-type header, classify, and
dispatch. -/
def transformBodyGo (method ctHeader body : String) : TransformedBody :=
  let ct := (strBytes ctHeader).map lowerByte
  let c := contentTypeGo method ct
  if c = contentNoneC then .tbNone
  else if c = contentURLEncodedC then .tbURLEncoded (parseURLEncodedGo body)
  else if c = contentMultipartC then .tbMultipart body
  else .tbStream body

example : contentTypeGo "HEAD" (strBytes "application/json") = contentNoneC := by rfl
example : contentTypeGo "POST" ((strBytes "Multipart/Form-Data; boundary=demo").map lowerByte) =
    contentMultipartC := by rfl
example : transformBodyGo "POST" "application/json" "x" = .tbStream "x" := by rfl

/-! ### Helper lemmas -/

theorem strMk_toList (s : String) : String.mk s.toList = s := rfl

theorem appendToLast_snoc : ∀ (ks : List (List Char)) (p : List Char) (c : Char),
    appendToLast (ks ++ [p]) c = ks ++ [p ++ [c]]
  | [], _, _ => rfl
  | [_], _, _ => rfl
  | a :: b :: ks, p, c => congrArg (a :: ·) (appendToLast_snoc (b :: ks) p c)

theorem appendToLast_ne_nil : ∀ (ks : List (List Char)) (c : Char),
    ks ≠ [] → appendToLast ks c ≠ []
  | [], _, h => absurd rfl h
  | [a], c, _ => by simp [appendToLast]
  | a :: b :: ks, c, _ => by simp [appendToLast]

theorem fetchAux_ne_nil : ∀ (l : List Char) (pos : Nat) (ks : List (List Char)),
    ks ≠ [] → fetchAux l pos ks ≠ []
  | [], _, ks, h => by simpa [fetchAux] using h
  | c :: rest, pos, ks, h => by
    unfold fetchAux
    split_ifs with h1 h2 h3 h4 h5
    · exact fetchAux_ne_nil rest pos ks h
    · exact fetchAux_ne_nil rest 1 ks h
    · exact fetchAux_ne_nil rest 2 (ks ++ [[]]) (by simp)
    · exact fetchAux_ne_nil rest 2 ks h
    · exact fetchAux_ne_nil rest 0 _ (appendToLast_ne_nil (ks ++ [[]]) c (by simp))
    · exact fetchAux_ne_nil rest 0 _ (appendToLast_ne_nil ks c h)

theorem fetchAux_filter_space : ∀ (l : List Char) (pos : Nat) (ks : List (List Char)),
    fetchAux (l.filter (fun c => c ≠ ' ')) pos ks = fetchAux l pos ks
  | [], _, _ => rfl
  | c :: rest, pos, ks => by
    by_cases hc : c = ' '
    · subst hc
      show fetchAux (List.filter (fun x => decide (x ≠ ' ')) (' ' :: rest)) pos ks =
        fetchAux (' ' :: rest) pos ks
      rw [show List.filter (fun x => decide (x ≠ ' ')) (' ' :: rest) =
            List.filter (fun x => decide (x ≠ ' ')) rest from by simp]
      exact fetchAux_filter_space rest pos ks
    · show fetchAux (List.filter (fun x => decide (x ≠ ' ')) (c :: rest)) pos ks =
        fetchAux (c :: rest) pos ks
      rw [show List.filter (fun x => decide (x ≠ ' ')) (c :: rest) =
            c :: List.filter (fun x => decide (x ≠ ' ')) rest from by simp [hc]]
      simp only [fetchAux]
      split_ifs <;>
        first
        | exact absurd (by assumption) hc
        | exact fetchAux_filter_space rest _ _

theorem fetchAux_plain : ∀ (l : List Char) (ks : List (List Char)) (p : List Char),
    (∀ c ∈ l, c ≠ ' ' ∧ c ≠ '[' ∧ c ≠ ']') →
    fetchAux l 0 (ks ++ [p]) = ks ++ [p ++ l]
  | [], ks, p, _ => by simp [fetchAux]
  | c :: rest, ks, p, h => by
    obtain ⟨h1, h2, h3⟩ := h c (by simp)
    unfold fetchAux
    rw [if_neg h1, if_neg h2, if_neg h3]
    show fetchAux rest 0 (appendToLast (ks ++ [p]) c) = ks ++ [p ++ (c :: rest)]
    rw [appendToLast_snoc]
    rw [fetchAux_plain rest ks (p ++ [c]) (fun d hd => h d (List.mem_cons_of_mem c hd))]
    simp

/-- Claim C9: serializing an empty data tree yields exactly the two bytes
`{}` — never `null` and never an omitted value. -/
theorem packDataTree_empty_is_braces :
    packDataTree .nil = "\x7b\x7d" ∧ (packDataTree .nil).length = 2 :=
  ⟨rfl, rfl⟩

/-- Claim C4: parsing the URL-encoded body
`full_name=Ada+Lovelace&nested[one]=1&tags[]=a&tags[]=b` succeeds and
produces exactly the encoded data tree
`{"full_name":"Ada Lovelace","nested":{"one":"1"},"tags":["a","b"]}`:
`+` decodes to space, bracket keys nest, and the `[]` key collects both
values as an ordered list. -/
theorem parseURLEncoded_ada_example :
    parseURLEncodedGo "full_name=Ada+Lovelace&nested[one]=1&tags[]=a&tags[]=b" =
      .ok "\x7b\"full_name\":\"Ada Lovelace\",\"nested\":\x7b\"one\":\"1\"\x7d,\"tags\":[\"a\",\"b\"]\x7d" :=
  rfl

/-- Claim C5: the key-path tokenizer scans character by character, strips
spaces unconditionally, gives a single-segment path for bare names, always
terminates with a (nonempty) best-effort segment list even on malformed
brackets, and maps `meta[author]` to `["meta","author"]` and `tags[]` to
`["tags",""]`. -/
theorem fetchIndexes_spec :
    fetchIndexes "meta[author]" = ["meta", "author"] ∧
    fetchIndexes "tags[]" = ["tags", ""] ∧
    (∀ s : String, fetchIndexes (String.mk (s.toList.filter (fun c => c ≠ ' '))) =
      fetchIndexes s) ∧
    (∀ s : String, (∀ c ∈ s.toList, c ≠ ' ' ∧ c ≠ '[' ∧ c ≠ ']') →
      fetchIndexes s = [s]) ∧
    (∀ s : String, fetchIndexes s ≠ []) ∧
    fetchIndexes "a]b[" = ["a", "b"] ∧
    fetchIndexes "a[[b]]" = ["a", "b"] := by
  refine ⟨by decide, by decide, ?_, ?_, ?_, by decide, by decide⟩
  · intro s
    unfold fetchIndexes
    rw [show (String.mk (s.toList.filter (fun c => c ≠ ' '))).toList =
      s.toList.filter (fun c => c ≠ ' ') from rfl]
    rw [fetchAux_filter_space]
  · intro s h
    unfold fetchIndexes
    have := fetchAux_plain s.toList [] [] h
    simp only [List.nil_append] at this
    rw [this]
    simp [strMk_toList]
  · intro s
    unfold fetchIndexes
    have := fetchAux_ne_nil s.toList 0 [[]] (by simp)
    simpa using this

/-- Claim C5 witness: the tokenizer facts instantiated at concrete keys. -/
theorem fetchIndexes_spec_witness :
    fetchIndexes "title" = ["title"] ∧
    fetchIndexes (String.mk (" a b ".toList.filter (fun c => c ≠ ' '))) =
      fetchIndexes " a b " ∧
    fetchIndexes "x[" ≠ [] := by
  refine ⟨?_, ?_, ?_⟩
  · exact fetchIndexes_spec.2.2.2.1 "title" (by decide)
  · exact fetchIndexes_spec.2.2.1 " a b "
  · exact fetchIndexes_spec.2.2.2.2.1 "x["

/-- Claim C6: classification is a pure function into exactly the four
categories; HEAD/OPTIONS always classify as `contentNone` and then
`transformBody` returns the empty `(nil, nil, false, nil, nil)` result (no
decoding invoked, no body forwarded); otherwise the lowercased content-type
is substring-matched for `application/x-www-form-urlencoded`, then
`multipart/form-data` (parameters such as `boundary=` and letter case do
not matter), with `Stream` as the default passing the body through
unmodified. -/
theorem contentType_classification :
    (∀ (m : String) (ct : List Nat),
      contentTypeGo m ct = contentNoneC ∨ contentTypeGo m ct = contentStreamC ∨
      contentTypeGo m ct = contentMultipartC ∨ contentTypeGo m ct = contentURLEncodedC) ∧
    (∀ (m ct body : String), (m = "HEAD" ∨ m = "OPTIONS") →
      transformBodyGo m ct body = .tbNone ∧
      contentTypeGo m ((strBytes ct).map lowerByte) = contentNoneC) ∧
    (∀ (m : String) (ct : List Nat), m ≠ "HEAD" → m ≠ "OPTIONS" →
      (hasSub ct (strBytes "application/x-www-form-urlencoded") = true →
        contentTypeGo m ct = contentURLEncodedC) ∧
      (hasSub ct (strBytes "application/x-www-form-urlencoded") = false →
        hasSub ct (strBytes "multipart/form-data") = true →
        contentTypeGo m ct = contentMultipartC) ∧
      (hasSub ct (strBytes "application/x-www-form-urlencoded") = false →
        hasSub ct (strBytes "multipart/form-data") = false →
        contentTypeGo m ct = contentStreamC)) ∧
    (∀ (m ct1 ct2 body : String),
      (strBytes ct1).map lowerByte = (strBytes ct2).map lowerByte →
      transformBodyGo m ct1 body = transformBodyGo m ct2 body) ∧
    transformBodyGo "POST" "Multipart/Form-Data; boundary=demo" "B" = .tbMultipart "B" ∧
    transformBodyGo "POST" "application/json" "B" = .tbStream "B" := by
  refine ⟨?_, ?_, ?_, ?_, by rfl, by rfl⟩
  · intro m ct
    unfold contentTypeGo
    split_ifs <;> simp
  · intro m ct body hm
    have hcls : contentTypeGo m ((strBytes ct).map lowerByte) = contentNoneC := by
      unfold contentTypeGo
      rcases hm with h | h <;> simp [h]
    refine ⟨?_, hcls⟩
    simp only [transformBodyGo]
    rw [hcls]
    rfl
  · intro m ct h1 h2
    have hm : (m = "HEAD" || m = "OPTIONS") = false := by simp [h1, h2]
    refine ⟨?_, ?_, ?_⟩ <;> intro hu
    · unfold contentTypeGo; rw [hm]; simp [hu]
    · intro hmp; unfold contentTypeGo; rw [hm]; simp [hu, hmp]
    · intro hmp; unfold contentTypeGo; rw [hm]; simp [hu, hmp]
  · intro m ct1 ct2 body h
    simp only [transformBodyGo]
    rw [h]

/-- Claim C6 witness: the classification facts at concrete inputs. -/
theorem contentType_classification_witness :
    transformBodyGo "HEAD" "application/json" "B" = .tbNone ∧
    contentTypeGo "POST" (strBytes "application/x-www-form-urlencoded") =
      contentURLEncodedC ∧
    transformBodyGo "POST" "MULTIPART/FORM-DATA; boundary=x" "B" =
      transformBodyGo "POST" "multipart/form-data; boundary=x" "B" := by
  refine ⟨?_, ?_, ?_⟩
  · exact (contentType_classification.2.1 "HEAD" "application/json" "B" (Or.inl rfl)).1
  · exact (contentType_classification.2.2.1 "POST"
      (strBytes "application/x-www-form-urlencoded") (by decide) (by decide)).1 (by decide)
  · exact contentType_classification.2.2.2.1 "POST" "MULTIPART/FORM-DATA; boundary=x"
      "multipart/form-data; boundary=x" "B" (by decide)

/-- Claim C3: tokenized paths with more than 127 segments are silently
dropped by `push` — no error, tree unchanged — and the other fields of the
request are still mounted as if the deep field were absent; paths of at
most 127 segments proceed to `mount`. -/
theorem push_depth_guard :
    (∀ (t : DTree) (k : String) (v : List String),
      maxLevel < (fetchIndexes k).length → dataPush t k v = .ok t) ∧
    (∀ (t : DTree) (k : String) (v : List String),
      (fetchIndexes k).length ≤ maxLevel →
      dataPush t k v = dataMount t (fetchIndexes k) v) ∧
    (∀ (t : FTree) (k : String) (v : List (Option Upload)),
      maxLevel < (fetchIndexes k).length → filePush t k v = .ok t) ∧
    (∀ (t : FTree) (k : String) (v : List (Option Upload)),
      (fetchIndexes k).length ≤ maxLevel →
      filePush t k v = fileMount t (fetchIndexes k) v) ∧
    (∀ (pre post : List (String × List String)) (k : String) (v : List String)
      (t0 : DTree), maxLevel < (fetchIndexes k).length →
      parsePostFormGo (pre ++ (k, v) :: post) t0 = parsePostFormGo (pre ++ post) t0) := by
  have hdrop : ∀ (t : DTree) (k : String) (v : List String),
      maxLevel < (fetchIndexes k).length → dataPush t k v = .ok t := by
    intro t k v h
    unfold dataPush
    rw [if_neg (by omega)]
  refine ⟨hdrop, ?_, ?_, ?_, ?_⟩
  · intro t k v h
    unfold dataPush
    rw [if_pos h]
  · intro t k v h
    unfold filePush
    rw [if_neg (by omega)]
  · intro t k v h
    unfold filePush
    rw [if_pos h]
  · intro pre post k v t0 h
    induction pre generalizing t0 with
    | nil =>
      simp only [List.nil_append, parsePostFormGo]
      rw [hdrop t0 k v h]
    | cons p pre ih =>
      obtain ⟨k0, v0⟩ := p
      simp only [List.cons_append, parsePostFormGo]
      cases hp : dataPush t0 k0 v0 with
      | error e => rfl
      | ok t2 => exact ih t2

/-- Claim C3 witness: a 128-segment key (`a` plus 127 bracket levels beyond
the first slot) is dropped while a sibling field still mounts. -/
theorem push_depth_guard_witness :
    dataPush DTree.nil (String.join (List.replicate 128 "[a]")) ["x"] = .ok DTree.nil ∧
    parsePostFormGo [("ok", ["1"]), (String.join (List.replicate 128 "[a]"), ["2"])]
        DTree.nil =
      parsePostFormGo [("ok", ["1"])] DTree.nil := by
  constructor
  · exact push_depth_guard.1 DTree.nil (String.join (List.replicate 128 "[a]")) ["x"]
      (by decide)
  · exact push_depth_guard.2.2.2.2 [("ok", ["1"])] [] (String.join (List.replicate 128 "[a]"))
      ["2"] DTree.nil (by decide)

/-- Claim C2: in the conflict-free terminal cases of `mount` (those where
`prepareTreeNode` neither errors nor finishes early): a path of length 2
whose second segment is empty stores the entire incoming list as an ordered
list under the first segment in both trees; a path of length 1 with a
non-empty incoming list stores the last element in the data tree but the
first element in the file tree; a path of length 1 with an empty incoming
list stores the list itself. -/
theorem mount_terminal_cases :
    (∀ (t : DTree) (k : String) (v : List String) (t2 : DTree),
      prepareDataNode t [k, ""] v = .ok (false, t2) →
      dataMount t [k, ""] v = .ok (t2.set k (.vList v))) ∧
    (∀ (t : DTree) (k : String) (v : List String) (t2 : DTree),
      prepareDataNode t [k] v = .ok (false, t2) → v ≠ [] →
      dataMount t [k] v = .ok (t2.set k (.vStr (v.getLastD "")))) ∧
    (∀ (t : DTree) (k : String) (t2 : DTree),
      prepareDataNode t [k] [] = .ok (false, t2) →
      dataMount t [k] [] = .ok (t2.set k (.vList []))) ∧
    (∀ (t : FTree) (k : String) (v : List (Option Upload)) (t2 : FTree),
      prepareFileNode t [k, ""] v = .ok (false, t2) →
      fileMount t [k, ""] v = .ok (t2.set k (.fList v))) ∧
    (∀ (t : FTree) (k : String) (u : Option Upload) (us : List (Option Upload))
      (t2 : FTree),
      prepareFileNode t [k] (u :: us) = .ok (false, t2) →
      fileMount t [k] (u :: us) = .ok (t2.set k (.fUp u))) ∧
    (∀ (t : FTree) (k : String) (t2 : FTree),
      prepareFileNode t [k] [] = .ok (false, t2) →
      fileMount t [k] [] = .ok (t2.set k (.fList []))) := by
  refine ⟨?_, ?_, ?_, ?_, ?_, ?_⟩
  · intro t k v t2 h
    unfold dataMount
    rw [h]; rfl
  · intro t k v t2 h hv
    unfold dataMount
    rw [h]
    cases v with
    | nil => exact absurd rfl hv
    | cons a as => rfl
  · intro t k t2 h
    unfold dataMount
    rw [h]; rfl
  · intro t k v t2 h
    unfold fileMount
    rw [h]; rfl
  · intro t k u us t2 h
    unfold fileMount
    rw [h]; rfl
  · intro t k t2 h
    unfold fileMount
    rw [h]; rfl

/-- Claim C2 witness: the terminal stores at concrete fresh keys. -/
theorem mount_terminal_cases_witness :
    dataMount DTree.nil ["x", ""] ["a", "b"] =
      .ok (DTree.cons "x" (.vList ["a", "b"]) .nil) ∧
    dataMount DTree.nil ["x"] ["a", "b"] =
      .ok (DTree.cons "x" (.vStr "b") .nil) ∧
    dataMount DTree.nil ["x"] [] = .ok (DTree.cons "x" (.vList []) .nil) ∧
    fileMount FTree.nil ["x", ""] [Option.none, Option.none] =
      .ok (FTree.cons "x" (.fList [Option.none, Option.none]) .nil) ∧
    fileMount FTree.nil ["x"] [some ⟨"f1", "", 0, 0, ""⟩, some ⟨"f2", "", 0, 0, ""⟩] =
      .ok (FTree.cons "x" (.fUp (some ⟨"f1", "", 0, 0, ""⟩)) .nil) ∧
    fileMount FTree.nil ["x"] [] = .ok (FTree.cons "x" (.fList []) .nil) := by
  refine ⟨?_, ?_, ?_, ?_, ?_, ?_⟩
  · exact mount_terminal_cases.1 DTree.nil "x" ["a", "b"]
      (DTree.cons "x" (.vTree .nil) .nil) rfl
  · exact mount_terminal_cases.2.1 DTree.nil "x" ["a", "b"]
      (DTree.cons "x" (.vTree .nil) .nil) rfl (by decide)
  · exact mount_terminal_cases.2.2.1 DTree.nil "x" (DTree.cons "x" (.vTree .nil) .nil) rfl
  · exact mount_terminal_cases.2.2.2.1 FTree.nil "x" [Option.none, Option.none]
      (FTree.cons "x" (.fTree .nil) .nil) rfl
  · exact mount_terminal_cases.2.2.2.2.1 FTree.nil "x" (some ⟨"f1", "", 0, 0, ""⟩)
      [some ⟨"f2", "", 0, 0, ""⟩] (FTree.cons "x" (.fTree .nil) .nil) rfl
  · exact mount_terminal_cases.2.2.2.2.2 FTree.nil "x"
      (FTree.cons "x" (.fTree .nil) .nil) rfl

/-- The `some` branch of `prepareDataNode` as a flat conditional. -/
theorem prepareDataNode_some (t : DTree) (k : String) (rest : List String)
    (v : List String) (cur : DVal) (h : t.lookup k = some cur) :
    prepareDataNode t (k :: rest) v =
      (if !cur.isBranch && !isDataEmptyD cur && descendsInto rest then
        .error conflictMsg
      else if !cur.isBranch && !isDataEmptyD cur && isDataEmptyVS v then
        .ok (true, t)
      else if !cur.isBranch && isDataEmptyD cur && !isDataEmptyVS v then
        .ok (false, t.set k (.vTree .nil))
      else if cur.isBranch && leafIncoming rest && !isDataEmptyVS v then
        .error conflictMsg
      else if cur.isBranch && leafIncoming rest && isDataEmptyVS v then
        .ok (true, t)
      else
        .ok (false, t)) := by
  unfold prepareDataNode
  dsimp only
  rw [h]

/-- The `some` branch of `prepareFileNode` as a flat conditional. -/
theorem prepareFileNode_some (t : FTree) (k : String) (rest : List String)
    (v : List (Option Upload)) (cur : FVal) (h : t.lookup k = some cur) :
    prepareFileNode t (k :: rest) v =
      (if !cur.isBranch && !isDataEmptyF cur && descendsInto rest then
        .error conflictMsg
      else if !cur.isBranch && !isDataEmptyF cur && isDataEmptyFS v then
        .ok (true, t)
      else if !cur.isBranch && isDataEmptyF cur && !isDataEmptyFS v then
        .ok (false, t.set k (.fTree .nil))
      else if cur.isBranch && leafIncoming rest && !isDataEmptyFS v then
        .error conflictMsg
      else if cur.isBranch && leafIncoming rest && isDataEmptyFS v then
        .ok (true, t)
      else
        .ok (false, t)) := by
  unfold prepareFileNode
  dsimp only
  rw [h]

theorem dtree_lookup_set_self : ∀ (t : DTree) (k : String) (val : DVal),
    (t.set k val).lookup k = some val
  | .nil, k, val => by simp [DTree.set, DTree.lookup]
  | .cons k0 v0 rest, k, val => by
    unfold DTree.set
    by_cases hk : k0 = k
    · rw [if_pos hk]
      simp [DTree.lookup]
    · rw [if_neg hk]
      unfold DTree.lookup
      rw [if_neg hk]
      exact dtree_lookup_set_self rest k val

theorem dataMount_nil_ok : ∀ (keys : List String) (v : List String),
    ∃ t2, dataMount DTree.nil keys v = .ok t2
  | [], _ => ⟨.nil, rfl⟩
  | k :: rest, v => by
    unfold dataMount
    rw [show prepareDataNode DTree.nil (k :: rest) v =
      .ok (false, DTree.cons k (.vTree .nil) .nil) from rfl]
    dsimp only
    by_cases h1 : rest = [""]
    · rw [if_pos h1]
      exact ⟨_, rfl⟩
    · rw [if_neg h1]
      by_cases h0 : rest = []
      · rw [if_pos h0]
        by_cases hv : v.isEmpty
        · rw [if_pos hv]; exact ⟨_, rfl⟩
        · rw [if_neg hv]; exact ⟨_, rfl⟩
      · rw [if_neg h0]
        rw [show (DTree.cons k (DVal.vTree .nil) .nil).lookup k =
          some (DVal.vTree .nil) from by simp [DTree.lookup]]
        dsimp only
        obtain ⟨t2, h2⟩ := dataMount_nil_ok rest v
        rw [h2]
        exact ⟨_, rfl⟩

/-- Claim C10: a stored leaf that `isDataEmpty` regards as empty (empty
string, empty list, single empty string, and for file trees an empty list
or a single nil descriptor) is replaced by a fresh branch when a non-empty
value arrives, and mounting then proceeds without a conflict error; in
particular `a=` followed by `a[b]=2` yields `{"a":{"b":"2"}}`. -/
theorem empty_leaf_promotion :
    (∀ (t : DTree) (k : String) (rest : List String) (v : List String) (cur : DVal),
      t.lookup k = some cur → cur.isBranch = false → isDataEmptyD cur = true →
      isDataEmptyVS v = false →
      prepareDataNode t (k :: rest) v = .ok (false, t.set k (.vTree .nil))) ∧
    (∀ (t : FTree) (k : String) (rest : List String) (v : List (Option Upload))
      (cur : FVal),
      t.lookup k = some cur → cur.isBranch = false → isDataEmptyF cur = true →
      isDataEmptyFS v = false →
      prepareFileNode t (k :: rest) v = .ok (false, t.set k (.fTree .nil))) ∧
    (∀ (t : DTree) (k : String) (rest : List String) (v : List String) (cur : DVal),
      t.lookup k = some cur → cur.isBranch = false → isDataEmptyD cur = true →
      isDataEmptyVS v = false →
      ∃ t2, dataMount t (k :: rest) v = .ok t2) ∧
    parsePostFormGo [("a", [""]), ("a[b]", ["2"])] DTree.nil =
      .ok (DTree.cons "a" (.vTree (DTree.cons "b" (.vStr "2") .nil)) .nil) := by
  have hprep : ∀ (t : DTree) (k : String) (rest : List String) (v : List String)
      (cur : DVal),
      t.lookup k = some cur → cur.isBranch = false → isDataEmptyD cur = true →
      isDataEmptyVS v = false →
      prepareDataNode t (k :: rest) v = .ok (false, t.set k (.vTree .nil)) := by
    intro t k rest v cur h hb hd hv
    rw [prepareDataNode_some t k rest v cur h, hb, hd, hv]
    rfl
  refine ⟨hprep, ?_, ?_, by rfl⟩
  · intro t k rest v cur h hb hd hv
    rw [prepareFileNode_some t k rest v cur h, hb, hd, hv]
    rfl
  · intro t k rest v cur h hb hd hv
    unfold dataMount
    rw [hprep t k rest v cur h hb hd hv]
    dsimp only
    by_cases h1 : rest = [""]
    · rw [if_pos h1]; exact ⟨_, rfl⟩
    · rw [if_neg h1]
      by_cases h0 : rest = []
      · rw [if_pos h0]
        by_cases hve : v.isEmpty
        · rw [if_pos hve]; exact ⟨_, rfl⟩
        · rw [if_neg hve]; exact ⟨_, rfl⟩
      · rw [if_neg h0]
        rw [dtree_lookup_set_self t k (.vTree .nil)]
        dsimp only
        obtain ⟨t2, h2⟩ := dataMount_nil_ok rest v
        rw [h2]
        exact ⟨_, rfl⟩

/-- Claim C10 witness: the promotion facts instantiated at an empty-string
leaf and at an empty file list. -/
theorem empty_leaf_promotion_witness :
    prepareDataNode (DTree.cons "a" (.vStr "") .nil) ["a", "b"] ["2"] =
      .ok (false, DTree.cons "a" (.vTree .nil) .nil) ∧
    prepareFileNode (FTree.cons "a" (.fList []) .nil) ["a", "b"]
        [some ⟨"f", "", 0, 0, ""⟩] =
      .ok (false, FTree.cons "a" (.fTree .nil) .nil) ∧
    ∃ t2, dataMount (DTree.cons "a" (.vStr "") .nil) ["a", "b"] ["2"] = .ok t2 := by
  refine ⟨?_, ?_, ?_⟩
  · exact empty_leaf_promotion.1 (DTree.cons "a" (.vStr "") .nil) "a" ["b"] ["2"]
      (.vStr "") rfl rfl rfl rfl
  · exact empty_leaf_promotion.2.1 (FTree.cons "a" (.fList []) .nil) "a" ["b"]
      [some ⟨"f", "", 0, 0, ""⟩] (.fList []) rfl rfl rfl rfl
  · exact empty_leaf_promotion.2.2.1 (DTree.cons "a" (.vStr "") .nil) "a" ["b"] ["2"]
      (.vStr "") rfl rfl rfl rfl

/-- Claim C1 counterexample: with an existing non-empty leaf `a = "1"` and
the descending path `a[b]`, an incoming value that the code itself
classifies as empty (`[""]`) still produces the conflict error — the
incoming value is not consulted on this error path, contradicting the
claim that an empty incoming value always makes the insertion a no-op
instead of an error. -/
theorem conflict_empty_incoming_counterexample :
    isDataEmptyVS [""] = true ∧
    dataMount (DTree.cons "a" (.vStr "1") .nil) ["a", "b"] [""] =
      .error conflictMsg :=
  ⟨rfl, rfl⟩

/-- Claim C1 (amended): `prepareTreeNode` (data instantiation) fails with
the conflict error exactly when the slot at `path[0]` is occupied and
either (1) the existing value is a non-empty leaf (not a branch) and the
path descends into a non-empty second segment — regardless of the incoming
value — or (2) the existing value is a branch, the path terminates there
(length 1, or length 2 with empty second segment), and the incoming value
is non-empty.  A fresh slot never conflicts, a branch with terminating
path and empty incoming value is a no-op, a prepare error aborts `mount`,
and a request with both `a=1` and `a[b]=2` fails with the conflict
error. -/
theorem conflict_characterization :
    (∀ (t : DTree) (k : String) (rest : List String) (v : List String),
      t.lookup k = Option.none →
      prepareDataNode t (k :: rest) v = .ok (false, t.set k (.vTree .nil))) ∧
    (∀ (t : DTree) (k : String) (rest : List String) (v : List String) (cur : DVal),
      t.lookup k = some cur →
      ((∃ e, prepareDataNode t (k :: rest) v = .error e) ↔
        ((cur.isBranch = false ∧ isDataEmptyD cur = false ∧ descendsInto rest = true) ∨
         (cur.isBranch = true ∧ leafIncoming rest = true ∧ isDataEmptyVS v = false)))) ∧
    (∀ (t : DTree) (k : String) (rest : List String) (v : List String) (cur : DVal),
      t.lookup k = some cur → cur.isBranch = true → leafIncoming rest = true →
      isDataEmptyVS v = true →
      prepareDataNode t (k :: rest) v = .ok (true, t)) ∧
    (∀ (t : DTree) (k : String) (rest : List String) (v : List String) (e : String),
      prepareDataNode t (k :: rest) v = .error e →
      dataMount t (k :: rest) v = .error e) ∧
    parsePostFormGo [("a", ["1"]), ("a[b]", ["2"])] DTree.nil = .error conflictMsg := by
  refine ⟨?_, ?_, ?_, ?_, by rfl⟩
  · intro t k rest v h
    unfold prepareDataNode
    dsimp only
    rw [h]
  · intro t k rest v cur h
    rw [prepareDataNode_some t k rest v cur h]
    cases hb : cur.isBranch <;> cases hd : isDataEmptyD cur <;>
      cases hv : isDataEmptyVS v <;> cases hdc : descendsInto rest <;>
      cases hl : leafIncoming rest <;> simp
  · intro t k rest v cur h hb hl hv
    rw [prepareDataNode_some t k rest v cur h, hb, hl, hv]
    rfl
  · intro t k rest v e h
    unfold dataMount
    rw [h]

/-- Claim C1 witness: the characterization instantiated at concrete trees,
paths and values. -/
theorem conflict_characterization_witness :
    prepareDataNode DTree.nil ["a"] ["1"] =
      .ok (false, DTree.cons "a" (.vTree .nil) .nil) ∧
    (∃ e, prepareDataNode (DTree.cons "a" (.vStr "1") .nil) ["a", "b"] ["2"] =
      .error e) ∧
    prepareDataNode (DTree.cons "a" (.vTree .nil) .nil) ["a"] [] =
      .ok (true, DTree.cons "a" (.vTree .nil) .nil) ∧
    dataMount (DTree.cons "a" (.vStr "1") .nil) ["a", "b"] ["2"] =
      .error conflictMsg := by
  refine ⟨?_, ?_, ?_, ?_⟩
  · exact conflict_characterization.1 DTree.nil "a" [] ["1"] rfl
  · exact (conflict_characterization.2.1 (DTree.cons "a" (.vStr "1") .nil) "a" ["b"]
      ["2"] (.vStr "1") rfl).mpr (Or.inl ⟨rfl, rfl, rfl⟩)
  · exact conflict_characterization.2.2.1 (DTree.cons "a" (.vTree .nil) .nil) "a" []
      [] (.vTree .nil) rfl rfl rfl rfl
  · exact conflict_characterization.2.2.2.1 (DTree.cons "a" (.vStr "1") .nil) "a"
      ["b"] ["2"] conflictMsg rfl

theorem mem_clearStep (fs : List String) (f : Upload) (p : String) :
    p ∈ clearStep fs f ↔ p ∈ fs ∧ (f.tempFilename ≠ "" → p ≠ f.tempFilename) := by
  unfold clearStep
  split_ifs with h
  · simp only [Bool.and_eq_true, decide_eq_true_eq, List.elem_iff] at h
    simp only [List.mem_filter, decide_eq_true_eq]
    constructor
    · rintro ⟨h1, h2⟩
      exact ⟨h1, fun _ => h2⟩
    · rintro ⟨h1, h2⟩
      exact ⟨h1, h2 h.1⟩
  · simp only [Bool.and_eq_true, decide_eq_true_eq, List.elem_iff,
      not_and_or] at h
    constructor
    · intro h1
      refine ⟨h1, fun hn hpe => ?_⟩
      rcases h with h | h
      · exact h hn
      · rw [← hpe] at h
        exact h h1
    · exact fun h1 => h1.1

theorem mem_uploadsClear : ∀ (list : List Upload) (fs : List String) (p : String),
    p ∈ uploadsClear list fs ↔
      p ∈ fs ∧ ∀ f ∈ list, f.tempFilename ≠ "" → p ≠ f.tempFilename
  | [], fs, p => by simp [uploadsClear]
  | f :: rest, fs, p => by
    show p ∈ uploadsClear rest (clearStep fs f) ↔ _
    rw [mem_uploadsClear rest (clearStep fs f) p, mem_clearStep fs f p]
    constructor
    · rintro ⟨⟨h1, h2⟩, h3⟩
      exact ⟨h1, by simpa using And.intro h2 h3⟩
    · rintro ⟨h1, h2⟩
      simp only [List.mem_cons] at h2
      exact ⟨⟨h1, h2 f (Or.inl rfl)⟩, fun g hg => h2 g (Or.inr hg)⟩

theorem uploadsClear_noop : ∀ (list : List Upload) (fs : List String),
    (∀ f ∈ list, f.tempFilename ≠ "" → f.tempFilename ∉ fs) →
    uploadsClear list fs = fs
  | [], fs, _ => rfl
  | f :: rest, fs, h => by
    show uploadsClear rest (clearStep fs f) = fs
    have hstep : clearStep fs f = fs := by
      unfold clearStep
      split_ifs with hc
      · simp only [Bool.and_eq_true, decide_eq_true_eq, List.elem_iff] at hc
        exact absurd hc.2 (h f (List.mem_cons_self f rest) hc.1)
      · rfl
    rw [hstep]
    exact uploadsClear_noop rest fs (fun g hg => h g (List.mem_cons_of_mem f hg))

/-- Claim C7: `Uploads.Clear` deletes every temp file referenced by any
descriptor in the flat list, leaves unrelated files alone, tolerates
already-missing files, and is idempotent: a second run leaves the
filesystem exactly as the first left it. -/
theorem uploads_clear_spec :
    (∀ (list : List Upload) (fs : List String) (f : Upload), f ∈ list →
      f.tempFilename ≠ "" → f.tempFilename ∉ uploadsClear list fs) ∧
    (∀ (list : List Upload) (fs : List String) (p : String), p ∈ fs →
      (∀ f ∈ list, p ≠ f.tempFilename) → p ∈ uploadsClear list fs) ∧
    (∀ (list : List Upload) (fs : List String),
      uploadsClear list (uploadsClear list fs) = uploadsClear list fs) := by
  have h1 : ∀ (list : List Upload) (fs : List String) (f : Upload), f ∈ list →
      f.tempFilename ≠ "" → f.tempFilename ∉ uploadsClear list fs := by
    intro list fs f hf hne hmem
    rw [mem_uploadsClear] at hmem
    exact hmem.2 f hf hne rfl
  refine ⟨h1, ?_, ?_⟩
  · intro list fs p hp hne
    rw [mem_uploadsClear]
    exact ⟨hp, fun f hf _ => hne f hf⟩
  · intro list fs
    exact uploadsClear_noop list (uploadsClear list fs)
      (fun f hf hne => h1 list fs f hf hne)

/-- Claim C7 witness: clearing a concrete two-file collection removes the
referenced temp files, keeps the unrelated one, and a second run changes
nothing. -/
theorem uploads_clear_spec_witness :
    "/tmp/u1" ∉ uploadsClear [⟨"a", "", 1, 0, "/tmp/u1"⟩] ["/tmp/u1", "/tmp/keep"] ∧
    "/tmp/keep" ∈ uploadsClear [⟨"a", "", 1, 0, "/tmp/u1"⟩] ["/tmp/u1", "/tmp/keep"] ∧
    uploadsClear [⟨"a", "", 1, 0, "/tmp/u1"⟩]
        (uploadsClear [⟨"a", "", 1, 0, "/tmp/u1"⟩] ["/tmp/u1", "/tmp/keep"]) =
      uploadsClear [⟨"a", "", 1, 0, "/tmp/u1"⟩] ["/tmp/u1", "/tmp/keep"] := by
  refine ⟨?_, ?_, ?_⟩
  · exact uploads_clear_spec.1 [⟨"a", "", 1, 0, "/tmp/u1"⟩] ["/tmp/u1", "/tmp/keep"]
      ⟨"a", "", 1, 0, "/tmp/u1"⟩ (by decide) (by decide)
  · exact uploads_clear_spec.2.1 [⟨"a", "", 1, 0, "/tmp/u1"⟩] ["/tmp/u1", "/tmp/keep"]
      "/tmp/keep" (by decide) (by decide)
  · exact uploads_clear_spec.2.2 [⟨"a", "", 1, 0, "/tmp/u1"⟩] ["/tmp/u1", "/tmp/keep"]

theorem mem_ftreeUploads_set : ∀ (t : FTree) (k : String) (val : FVal)
    (x : Option Upload),
    x ∈ ftreeUploads (t.set k val) → x ∈ ftreeUploads t ∨ x ∈ fvalUploads val
  | .nil, k, val, x, h => by
    simp only [FTree.set, ftreeUploads, List.append_nil] at h
    exact Or.inr h
  | .cons k0 v0 rest, k, val, x, h => by
    unfold FTree.set at h
    split_ifs at h with hk
    · simp only [ftreeUploads, List.mem_append] at h ⊢
      tauto
    · simp only [ftreeUploads, List.mem_append] at h ⊢
      rcases h with h | h
      · tauto
      · rcases mem_ftreeUploads_set rest k val x h with h | h <;> tauto

theorem mem_ftreeUploads_lookup : ∀ (t : FTree) (k : String) (val : FVal),
    t.lookup k = some val → ∀ x ∈ fvalUploads val, x ∈ ftreeUploads t
  | .nil, _, _, h => by simp [FTree.lookup] at h
  | .cons k0 v0 rest, k, val, h => by
    unfold FTree.lookup at h
    split_ifs at h with hk
    · intro x hx
      injection h with h
      subst h
      simp only [ftreeUploads, List.mem_append]
      exact Or.inl hx
    · intro x hx
      simp only [ftreeUploads, List.mem_append]
      exact Or.inr (mem_ftreeUploads_lookup rest k val h x hx)

theorem prepareFileNode_uploads_subset (t : FTree) (i : List String)
    (v : List (Option Upload)) (b : Bool) (t2 : FTree)
    (h : prepareFileNode t i v = .ok (b, t2)) :
    ∀ x ∈ ftreeUploads t2, x ∈ ftreeUploads t := by
  intro x hx
  cases i with
  | nil =>
    unfold prepareFileNode at h
    simp only [Except.ok.injEq, Prod.mk.injEq] at h
    rw [← h.2] at hx
    exact hx
  | cons k rest =>
    unfold prepareFileNode at h
    dsimp only at h
    cases hl : t.lookup k with
    | none =>
      rw [hl] at h
      dsimp only at h
      simp only [Except.ok.injEq, Prod.mk.injEq] at h
      rw [← h.2] at hx
      rcases mem_ftreeUploads_set t k (.fTree .nil) x hx with h2 | h2
      · exact h2
      · simp [fvalUploads, ftreeUploads] at h2
    | some cur =>
      rw [hl] at h
      dsimp only at h
      split_ifs at h <;>
        first
        | exact Except.noConfusion h
        | (injection h with h1
           injection h1 with hb ht
           subst ht
           first
           | exact hx
           | exact (mem_ftreeUploads_set t k (.fTree .nil) x hx).resolve_right
               (by simp [fvalUploads, ftreeUploads]))

theorem fileMount_uploads_subset : ∀ (keys : List String) (t t2 : FTree)
    (v : List (Option Upload)), fileMount t keys v = .ok t2 →
    ∀ x ∈ ftreeUploads t2, x ∈ ftreeUploads t ∨ x ∈ v
  | [], t, t2, v, h => by
    unfold fileMount at h
    injection h with h
    subst h
    exact fun x hx => Or.inl hx
  | k :: rest, t, t2, v, h => by
    intro x hx
    unfold fileMount at h
    cases hp : prepareFileNode t (k :: rest) v with
    | error e =>
      rw [hp] at h
      exact Except.noConfusion h
    | ok p =>
      obtain ⟨b, t1⟩ := p
      have hsub := prepareFileNode_uploads_subset t (k :: rest) v b t1 hp
      rw [hp] at h
      cases b with
      | true =>
        dsimp only at h
        injection h with h
        subst h
        exact Or.inl (hsub x hx)
      | false =>
        dsimp only at h
        by_cases h1 : rest = [""]
        · rw [if_pos h1] at h
          injection h with h
          subst h
          rcases mem_ftreeUploads_set t1 k (.fList v) x hx with h2 | h2
          · exact Or.inl (hsub x h2)
          · exact Or.inr (by simpa [fvalUploads] using h2)
        · rw [if_neg h1] at h
          by_cases h0 : rest = []
          · rw [if_pos h0] at h
            cases v with
            | cons u us =>
              dsimp only at h
              injection h with h
              subst h
              rcases mem_ftreeUploads_set t1 k (.fUp u) x hx with h2 | h2
              · exact Or.inl (hsub x h2)
              · have h3 : x = u := by simpa [fvalUploads] using h2
                rw [h3]
                exact Or.inr (List.mem_cons_self u us)
            | nil =>
              dsimp only at h
              injection h with h
              subst h
              rcases mem_ftreeUploads_set t1 k (.fList []) x hx with h2 | h2
              · exact Or.inl (hsub x h2)
              · simp [fvalUploads] at h2
          · rw [if_neg h0] at h
            cases hl : t1.lookup k with
            | none =>
              rw [hl] at h
              dsimp only at h
              exact Except.noConfusion h
            | some cur =>
              rw [hl] at h
              cases cur with
              | fUp u =>
                dsimp only at h
                exact Except.noConfusion h
              | fList l =>
                dsimp only at h
                exact Except.noConfusion h
              | fTree sub =>
                dsimp only at h
                cases hm : fileMount sub rest v with
                | error e =>
                  rw [hm] at h
                  exact Except.noConfusion h
                | ok sub2 =>
                  rw [hm] at h
                  dsimp only at h
                  injection h with h
                  subst h
                  rcases mem_ftreeUploads_set t1 k (.fTree sub2) x hx with h2 | h2
                  · exact Or.inl (hsub x h2)
                  · have h3 : x ∈ ftreeUploads sub2 := by
                      simpa [fvalUploads] using h2
                    rcases fileMount_uploads_subset rest sub sub2 v hm x h3 with h4 | h4
                    · refine Or.inl (hsub x ?_)
                      exact mem_ftreeUploads_lookup t1 k (.fTree sub) hl x
                        (by simpa [fvalUploads] using h4)
                    · exact Or.inr h4

theorem filePush_uploads_subset (t t2 : FTree) (k : String)
    (v : List (Option Upload)) (h : filePush t k v = .ok t2) :
    ∀ x ∈ ftreeUploads t2, x ∈ ftreeUploads t ∨ x ∈ v := by
  unfold filePush at h
  dsimp only at h
  split_ifs at h with hlen
  · exact fileMount_uploads_subset (fetchIndexes k) t t2 v h
  · injection h with h
    subst h
    exact fun x hx => Or.inl hx

theorem parseUploadsGo_list_mono : ∀ (form : List (String × List Upload))
    (u0 u : UploadsGo), parseUploadsGo form u0 = .ok u → ∀ y ∈ u0.list, y ∈ u.list
  | [], u0, u, h => by
    unfold parseUploadsGo at h
    injection h with h
    subst h
    exact fun y hy => hy
  | (k, files) :: rest, u0, u, h => by
    unfold parseUploadsGo at h
    cases hp : filePush u0.tree k (files.map Option.some) with
    | error e =>
      rw [hp] at h
      exact Except.noConfusion h
    | ok t2 =>
      rw [hp] at h
      dsimp only at h
      intro y hy
      exact parseUploadsGo_list_mono rest ⟨t2, u0.list ++ files⟩ u h y
        (List.mem_append.2 (Or.inl hy))

theorem parseUploadsGo_tree_subset : ∀ (form : List (String × List Upload))
    (u0 u : UploadsGo), parseUploadsGo form u0 = .ok u →
    ∀ x ∈ ftreeUploads u.tree,
      x ∈ ftreeUploads u0.tree ∨ ∃ up, x = some up ∧ up ∈ u.list
  | [], u0, u, h => by
    unfold parseUploadsGo at h
    injection h with h
    subst h
    exact fun x hx => Or.inl hx
  | (k, files) :: rest, u0, u, h => by
    unfold parseUploadsGo at h
    cases hp : filePush u0.tree k (files.map Option.some) with
    | error e =>
      rw [hp] at h
      exact Except.noConfusion h
    | ok t2 =>
      rw [hp] at h
      dsimp only at h
      intro x hx
      rcases parseUploadsGo_tree_subset rest ⟨t2, u0.list ++ files⟩ u h x hx with h1 | h1
      · rcases filePush_uploads_subset u0.tree t2 k (files.map Option.some) hp x h1
          with h2 | h2
        · exact Or.inl h2
        · rcases List.mem_map.1 h2 with ⟨up, hup, hxu⟩
          refine Or.inr ⟨up, hxu.symm, ?_⟩
          exact parseUploadsGo_list_mono rest ⟨t2, u0.list ++ files⟩ u h up
            (List.mem_append.2 (Or.inr hup))
      · exact h1.elim (fun up hup => Or.inr ⟨up, hup⟩)

/-- Distinct upload descriptors sharing one bare form key. -/
def upA : Upload := ⟨"f1.png", "image/png", 0, 0, ""⟩

/-- Second descriptor for the shared key. -/
def upB : Upload := ⟨"f2.png", "image/png", 0, 0, ""⟩

/-- Claim C8 counterexample: a multipart form whose key `a` carries two
file parts puts both descriptors in the flat list, but the file tree keeps
only the first (`ft[i[0]] = v[0]`), so the second descriptor is tracked in
the list alone and the claimed set equality fails. -/
theorem uploads_invariant_counterexample :
    parseUploadsGo [("a", [upA, upB])] ⟨.nil, []⟩ =
      .ok ⟨FTree.cons "a" (.fUp (some upA)) .nil, [upA, upB]⟩ ∧
    upB ∈ [upA, upB] ∧
    some upB ∉ ftreeUploads (FTree.cons "a" (.fUp (some upA)) .nil) := by
  refine ⟨rfl, by decide, by decide⟩

/-- Claim C8 (amended): for every Uploads collection produced from a
multipart request, every descriptor reachable from the file tree is present
in the flat list; the converse inclusion does not hold in general (a bare
key with several files keeps only the first in the tree). -/
theorem uploads_tree_subset_list :
    ∀ (form : List (String × List Upload)) (u : UploadsGo),
      parseUploadsGo form ⟨.nil, []⟩ = .ok u →
      ∀ x ∈ ftreeUploads u.tree, ∃ up, x = some up ∧ up ∈ u.list := by
  intro form u h x hx
  rcases parseUploadsGo_tree_subset form ⟨.nil, []⟩ u h x hx with h1 | h1
  · simp [ftreeUploads] at h1
  · exact h1

/-- Claim C8 witness: the forward inclusion at a concrete two-file form. -/
theorem uploads_tree_subset_list_witness :
    ∃ up, (some upA : Option Upload) = some up ∧ up ∈ [upA, upB] :=
  uploads_tree_subset_list [("a", [upA, upB])]
    ⟨FTree.cons "a" (.fUp (some upA)) .nil, [upA, upB]⟩ rfl (some upA) (by decide)
